import Mathlib

/-!
Verification of the icr2edit parameter patch engine.

The Python sources (icr2edit.py, icr2_physedit.py, icr2_physedit_gui.py) are
shallowly embedded below.  The target EXE file is modelled as a `List Nat` of
bytes; Python exceptions that escape a function are modelled with `Except Unit`;
Python `None` results are `Option.none`.  Python's `int(s, 16)` / `int(s)`
string-to-integer conversions, `str.strip`, `str.upper` and `str.isdigit` are
modelled character-by-character (ASCII, which covers every string the program
manipulates: hexadecimal offsets, decimal lengths and values).
-/

/-- The six ASCII characters Python's `str.strip()` and `int()` remove. -/
def isSpaceChar (c : Char) : Bool :=
  c = ' ' || c = '\t' || c = '\n' || c = '\r' || c = '\x0b' || c = '\x0c'

/-- Left side of Python `str.strip()` on a character list. -/
def stripLeft (cs : List Char) : List Char := cs.dropWhile isSpaceChar

/-- Right side of Python `str.strip()` on a character list. -/
def stripRight (cs : List Char) : List Char :=
  (cs.reverse.dropWhile isSpaceChar).reverse

/-- Python `str.strip()` on a character list. -/
def pyStripL (cs : List Char) : List Char := stripRight (stripLeft cs)

/-- Python `str.strip()`. -/
def pyStrip (s : String) : String := ⟨pyStripL s.toList⟩

/-- Python `str.upper()` (ASCII fragment). -/
def pyUpper (s : String) : String := ⟨s.toList.map Char.toUpper⟩

/-- Is `c` one of the hexadecimal digit characters accepted by `int(s, 16)`? -/
def isHexDigitChar (c : Char) : Bool :=
  c.isDigit || ('a' ≤ c && c ≤ 'f') || ('A' ≤ c && c ≤ 'F')

/-- Numeric value of a hexadecimal digit character. -/
def hexVal (c : Char) : Nat :=
  if c.isDigit then c.toNat - 48
  else if 'a' ≤ c && c ≤ 'f' then c.toNat - 87
  else c.toNat - 55

/-- Numeric value of a decimal digit character. -/
def digitVal (c : Char) : Nat := c.toNat - 48

/-- Tail of Python's base-16 digit grammar: hexadecimal digits with single
underscores allowed between digits (`acc` is the value read so far). -/
def hexUAux (acc : Nat) : List Char → Option Nat
  | [] => some acc
  | c :: cs =>
    if c = '_' then
      match cs with
      | c2 :: cs2 =>
        if isHexDigitChar c2 then hexUAux (16 * acc + hexVal c2) cs2 else none
      | [] => none
    else if isHexDigitChar c then hexUAux (16 * acc + hexVal c) cs
    else none

/-- Python base-16 digit run: nonempty, starts with a hexadecimal digit,
single underscores allowed between digits. -/
def hexUDigits : List Char → Option Nat
  | [] => none
  | c :: cs => if isHexDigitChar c then hexUAux (hexVal c) cs else none

/-- Body of `int(s, 16)` after sign handling: an optional `0x`/`0X` prefix
(with an optional single underscore directly after it) and a digit run. -/
def hexBody : List Char → Option Nat
  | '0' :: 'x' :: rest =>
    (match rest with
     | '_' :: rest2 => hexUDigits rest2
     | _ => hexUDigits rest)
  | '0' :: 'X' :: rest =>
    (match rest with
     | '_' :: rest2 => hexUDigits rest2
     | _ => hexUDigits rest)
  | cs => hexUDigits cs

/-- Python `int(s, 16)` on a character list: strip whitespace, optional sign,
optional `0x` prefix, hexadecimal digit run.  `none` models `ValueError`. -/
def pyIntHexL (cs : List Char) : Option Int :=
  match pyStripL cs with
  | '+' :: rest => (hexBody rest).map Int.ofNat
  | '-' :: rest => (hexBody rest).map (fun n => -(n : Int))
  | rest => (hexBody rest).map Int.ofNat

/-- Python `int(s, 16)`. -/
def pyIntHex (s : String) : Option Int := pyIntHexL s.toList

/-- Tail of Python's base-10 digit grammar (underscores between digits). -/
def decUAux (acc : Nat) : List Char → Option Nat
  | [] => some acc
  | c :: cs =>
    if c = '_' then
      match cs with
      | c2 :: cs2 =>
        if c2.isDigit then decUAux (10 * acc + digitVal c2) cs2 else none
      | [] => none
    else if c.isDigit then decUAux (10 * acc + digitVal c) cs
    else none

/-- Python base-10 digit run: nonempty, starts with a digit. -/
def decUDigits : List Char → Option Nat
  | [] => none
  | c :: cs => if c.isDigit then decUAux (digitVal c) cs else none

/-- Python `int(s)` on a character list. -/
def pyIntDecL (cs : List Char) : Option Int :=
  match pyStripL cs with
  | '+' :: rest => (decUDigits rest).map Int.ofNat
  | '-' :: rest => (decUDigits rest).map (fun n => -(n : Int))
  | rest => (decUDigits rest).map Int.ofNat

/-- Python `int(s)` (base 10). -/
def pyIntDec (s : String) : Option Int := pyIntDecL s.toList

/-- Python `str.isdigit()` (ASCII fragment): nonempty, all digit characters. -/
def pyIsDigit (s : String) : Bool :=
  !s.toList.isEmpty && s.toList.all Char.isDigit

/-- Value of an all-digit string, as computed by `int` on it. -/
def digitsToNat (s : String) : Nat :=
  s.toList.foldl (fun a c => 10 * a + digitVal c) 0

/-- The digit character for `d < 10`. -/
def natDigitChar (d : Nat) : Char :=
  if d = 0 then '0' else if d = 1 then '1' else if d = 2 then '2'
  else if d = 3 then '3' else if d = 4 then '4' else if d = 5 then '5'
  else if d = 6 then '6' else if d = 7 then '7' else if d = 8 then '8'
  else '9'

/-- Decimal digits of `n`, most significant first; `fuel` bounds the
recursion depth so that the definition is structural (any `fuel > n` is
enough, see `natDecListAux_fuel`). -/
def natDecListAux : Nat → Nat → List Char
  | 0, _ => []
  | fuel + 1, n =>
    if n < 10 then [natDigitChar n]
    else natDecListAux fuel (n / 10) ++ [natDigitChar (n % 10)]

/-- Decimal digit list of a natural number (Python `str` on a non-negative
int), most significant digit first. -/
def natDecList (n : Nat) : List Char := natDecListAux (n + 1) n

/-- Python `str` of an int, as a character list. -/
def intToDecL (v : Int) : List Char :=
  if v < 0 then '-' :: natDecList (-v).toNat else natDecList v.toNat

/-- Python `str` of an int. -/
def intToDec (v : Int) : String := ⟨intToDecL v⟩

deriving instance DecidableEq for Except

set_option synthInstance.maxSize 2000

/-! ### Little-endian byte coding (`struct.unpack`/`struct.pack`/`int.to_bytes`) -/

/-- Little-endian unsigned decode of a byte list (`struct.unpack('<B'/'<H'/'<I')`
and `int.from_bytes(data, 'little')` all compute this on their input width). -/
def unpackLE : List Nat → Nat
  | [] => 0
  | b :: bs => b + 256 * unpackLE bs

/-- Little-endian unsigned encode of `v` into `w` bytes. -/
def toLEBytes (v : Nat) : Nat → List Nat
  | 0 => []
  | w + 1 => (v % 256) :: toLEBytes (v / 256) w

/-- Effect of `f.seek(offset); f.write(bs)` on a file opened `rb+`: bytes at
`offset` are overwritten in place; seeking past the end zero-fills the gap. -/
def writeBytes (file : List Nat) (offset : Nat) (bs : List Nat) : List Nat :=
  file.take offset ++ List.replicate (offset - file.length) 0 ++ bs
    ++ file.drop (offset + bs.length)

/-! ### BinaryAccessor: `read_value_from_exe` / `write_value_to_exe`
(icr2edit.py lines 81-115; the other two variants have the same branches in a
different order). -/

/-- `read_value_from_exe(exe_path, address_hex, length)`.  `Except.error ()`
models the uncaught `ValueError` that `f.seek` raises on a negative offset;
`Except.ok none` models a `None` return (unparseable address or short read). -/
def read_value_from_exe (file : List Nat) (address_hex : String) (length : Nat) :
    Except Unit (Option Int) :=
  match pyIntHex address_hex with
  | none => Except.ok none
  | some offset =>
    if offset < 0 then Except.error ()
    else
      let data := (file.drop offset.toNat).take length
      if data.length ≠ length then Except.ok none
      else if length = 1 then Except.ok (some (unpackLE data : Nat))
      else if length = 2 then Except.ok (some (unpackLE data : Nat))
      else if length = 4 then Except.ok (some (unpackLE data : Nat))
      else Except.ok (some (unpackLE data : Nat))

/-- `write_value_to_exe(exe_path, address_hex, length, value)`.  On an
unparseable address the function returns with the file untouched.  A negative
offset makes `f.seek` raise; `struct.pack` (widths 1, 2, 4) and
`int.to_bytes` (other widths) raise when `value` is outside the unsigned
range of the width.  Both are `Except.error ()`. -/
def write_value_to_exe (file : List Nat) (address_hex : String) (length : Nat)
    (value : Int) : Except Unit (List Nat) :=
  match pyIntHex address_hex with
  | none => Except.ok file
  | some offset =>
    if offset < 0 then Except.error ()
    else if length = 1 then
      if 0 ≤ value ∧ value ≤ 0xFF then
        Except.ok (writeBytes file offset.toNat (toLEBytes value.toNat 1))
      else Except.error ()
    else if length = 2 then
      if 0 ≤ value ∧ value ≤ 0xFFFF then
        Except.ok (writeBytes file offset.toNat (toLEBytes value.toNat 2))
      else Except.error ()
    else if length = 4 then
      if 0 ≤ value ∧ value ≤ 0xFFFFFFFF then
        Except.ok (writeBytes file offset.toNat (toLEBytes value.toNat 4))
      else Except.error ()
    else
      if 0 ≤ value ∧ value < (2 : Int) ^ (8 * length) then
        Except.ok (writeBytes file offset.toNat (toLEBytes value.toNat length))
      else Except.error ()

/-! ### Version table and parameter catalog (icr2edit.py lines 17-32, 64-139) -/

/-- `EXE_VERSIONS` (icr2edit.py lines 17-23): exact file size to version tag. -/
def EXE_VERSIONS (size : Nat) : Option String :=
  if size = 1142371 then some "dos100"
  else if size = 1142387 then some "dos102"
  else if size = 1247899 then some "rend102"
  else if size = 1916928 then some "windy101"
  else if size = 1109095 then some "rend32A"
  else none

/-- `identify_icr2_version` (icr2edit.py lines 64-67): dictionary `get` on the
file's byte length; `none` models the unrecognized-version failure. -/
def identify_icr2_version (size : Nat) : Option String := EXE_VERSIONS size

/-- `ADDRESS_KEYS` (icr2edit.py lines 26-32): version tag to CSV column name;
`none` models a missing dictionary key. -/
def ADDRESS_KEYS (version : String) : Option String :=
  if version = "dos100" then some "DOS address"
  else if version = "dos102" then some "DOS address"
  else if version = "windy101" then some "Windy address"
  else if version = "rend102" then some "Rendition address"
  else if version = "rend32A" then some "Rendition DOS32A"
  else none

/-- One row of parameters.csv, restricted to the columns the embedded
functions consult (Category is the grouping key and is kept outside). -/
structure Param where
  description : String
  dataType : String
  lengthStr : String
  dos : String
  windy : String
  rend : String
  rend32 : String
  deriving DecidableEq, Repr

/-- `row.get(column, "")` for the four per-version address columns. -/
def getField (p : Param) (col : String) : String :=
  if col = "DOS address" then p.dos
  else if col = "Windy address" then p.windy
  else if col = "Rendition address" then p.rend
  else if col = "Rendition DOS32A" then p.rend32
  else ""

/-- `int(param['Length']) if param['Length'].isdigit() else 4`. -/
def paramLength (p : Param) : Nat :=
  if pyIsDigit p.lengthStr then digitsToNat p.lengthStr else 4

/-- `filter_parameters(parameters, version)` (icr2edit.py lines 117-128):
keep, in order, the rows whose address in the version's column (falling back
to "Windy address" for unknown versions) parses as hexadecimal. -/
def filter_parameters (parameters : List Param) (version : String) : List Param :=
  let address_key := (ADDRESS_KEYS version).getD "Windy address"
  parameters.filter (fun p => (pyIntHex (pyStrip (getField p address_key))).isSome)

/-- `load_initial_values(parameters, exe_path, version)` (icr2edit.py lines
130-139): one `read_value_from_exe` per row; the resulting dict maps each
index `i` to the (possibly `None`) value read, modelled as an index-aligned
list.  `ADDRESS_KEYS[version]` raises `KeyError` on an unknown version. -/
def load_initial_values (parameters : List Param) (file : List Nat)
    (version : String) : Except Unit (List (Option Int)) :=
  match ADDRESS_KEYS version with
  | none => Except.error ()
  | some col =>
    parameters.mapM (fun p =>
      read_value_from_exe file (pyStrip (getField p col)) (paramLength p))

/-- Number of file reads issued by one `read_value_from_exe` call: the file
is opened and read once when the address parses, not at all otherwise. -/
def readCallCount (address_hex : String) : Nat :=
  if (pyIntHex address_hex).isSome then 1 else 0

/-- Number of file reads issued by one `load_initial_values` call. -/
def loadReads (parameters : List Param) (version : String) : Nat :=
  match ADDRESS_KEYS version with
  | none => 0
  | some col =>
    (parameters.map (fun p => readCallCount (pyStrip (getField p col)))).sum

/-! ### SessionState: dictionaries, category activation, edits -/

/-- Python dict lookup (`d.get(k)` / `k in d`), on an insertion-ordered
association list with unique keys. -/
def dictGet {κ α : Type} [DecidableEq κ] : List (κ × α) → κ → Option α
  | [], _ => none
  | e :: rest, k => if e.1 = k then some e.2 else dictGet rest k

/-- Python dict store `d[k] = v`: replace in place, else append. -/
def dictSet {κ α : Type} [DecidableEq κ] : List (κ × α) → κ → α → List (κ × α)
  | [], k, v => [(k, v)]
  | e :: rest, k, v => if e.1 = k then (k, v) :: rest else e :: dictSet rest k v

/-- `unsaved_changes`: category name to (filtered-parameter snapshot,
current-value map).  Value maps are index-aligned lists (the dicts built by
`load_initial_values` have exactly the keys `0..n-1`). -/
abbrev ChangeSet := List (String × (List Param × List (Option Int)))

/-- Category activation in the console editor (icr2_physedit.py lines
220-226): if the category has an `unsaved_changes` entry its stored value map
is used as-is, otherwise the baseline is read from the EXE.  The second
component counts the file reads issued. -/
def console_select_category (pbc : List (String × List Param))
    (unsaved : ChangeSet) (selected_category : String) (file : List Nat)
    (version : String) : Except Unit (List (Option Int) × Nat) :=
  match dictGet pbc selected_category with
  | none => Except.error ()
  | some raw_params =>
    let valid_params := filter_parameters raw_params version
    match dictGet unsaved selected_category with
    | some entry => Except.ok (entry.2, 0)
    | none =>
      (load_initial_values valid_params file version).map
        (fun vs => (vs, loadReads valid_params version))

/-- Category activation in the GUI editor: `on_category_select` plus the
reads performed by `populate_params` (icr2edit.py lines 581-604).  The
current-value map is `unsaved_changes.get(category, (None, None))[1] or
load_initial_values(...)` (an empty stored map is falsy and triggers a
reload); `populate_params` then re-reads the baseline once at line 598 and
once more per row at line 604.  The second component counts file reads. -/
def on_category_select (pbc : List (String × List Param)) (unsaved : ChangeSet)
    (category : String) (file : List Nat) (version : String) :
    Except Unit (List (Option Int) × Nat) := do
  match dictGet pbc category with
  | none => Except.error ()
  | some raw_params =>
    let valid_params := filter_parameters raw_params version
    let selected ←
      match dictGet unsaved category with
      | some entry =>
        if entry.2.isEmpty then
          (load_initial_values valid_params file version).map
            (fun vs => (vs, loadReads valid_params version))
        else Except.ok (entry.2, 0)
      | none =>
        (load_initial_values valid_params file version).map
          (fun vs => (vs, loadReads valid_params version))
    let _ ← load_initial_values valid_params file version
    Except.ok (selected.1,
      selected.2 + loadReads valid_params version
        + valid_params.length * loadReads valid_params version)

/-- Outcome of `prompt_edit_parameter`, distinguished in the source by the
message printed on each path. -/
inductive EditResult where
  | updated
  | outOfRange
  | invalidInput
  | invalidIndex
  deriving DecidableEq, Repr

/-- `prompt_edit_parameter(index, parameters, current_values)`
(icr2_physedit.py lines 111-147) applied to the text the user typed:
bounds come from the `Data type` column (default `(0, 0xFFFFFFFF)`); an
out-of-range or unparseable value leaves `current_values` untouched. -/
def prompt_edit_parameter (index : Nat) (parameters : List Param)
    (current_values : List (Option Int)) (rawInput : String) :
    EditResult × List (Option Int) :=
  match parameters.get? index with
  | none => (EditResult.invalidIndex, current_values)
  | some param =>
    let data_type := pyStrip param.dataType
    let bounds : Int × Int :=
      if data_type = "UInt8" then (0, 0xFF)
      else if data_type = "UInt16" then (0, 0xFFFF)
      else if data_type = "UInt32" then (0, 0xFFFFFFFF)
      else (0, 0xFFFFFFFF)
    match pyIntDec (pyStrip rawInput) with
    | none => (EditResult.invalidInput, current_values)
    | some new_val =>
      if bounds.1 ≤ new_val ∧ new_val ≤ bounds.2 then
        (EditResult.updated, current_values.set index (some new_val))
      else (EditResult.outOfRange, current_values)

/-! ### ReconciliationEngine: export / import (icr2edit.py lines 425-546) -/

/-- One row of the exchanged CSV file, restricted to the five columns
written by `export_selected_parameters`. -/
structure CsvRow where
  dos : String
  windy : String
  rend : String
  lenStr : String
  valStr : String
  deriving DecidableEq, Repr

/-- The row `export_selected_parameters` writes for one parameter
(icr2edit.py lines 537-543); `csv` renders an `int` value with `str` and a
`None` value as the empty field. -/
def mkExportRow (p : Param) (value : Option Int) : CsvRow :=
  { dos := pyStrip p.dos
    windy := pyStrip p.windy
    rend := pyStrip p.rend
    lenStr := pyStrip p.lengthStr
    valStr := match value with | some v => intToDec v | none => "" }

/-- Composite key computed for a catalog row inside
`import_parameter_values` (icr2edit.py lines 472-478). -/
def compositeKeyOfParam (p : Param) : String × String × String × String :=
  (pyUpper (pyStrip p.dos), pyUpper (pyStrip p.windy),
    pyUpper (pyStrip p.rend), pyStrip p.lengthStr)

/-- Composite key computed for an imported CSV row
(icr2edit.py lines 446-453). -/
def compositeKeyOfRow (r : CsvRow) : String × String × String × String :=
  (pyUpper (pyStrip r.dos), pyUpper (pyStrip r.windy),
    pyUpper (pyStrip r.rend), pyStrip r.lenStr)

/-- `imported_map` (icr2edit.py lines 446-458): key each row, parse its
`Value` as a base-10 int, skip rows whose value does not parse; a repeated
key keeps the last value. -/
def buildImportedMap (rows : List CsvRow) :
    List ((String × String × String × String) × Int) :=
  rows.foldl (fun m r =>
    match pyIntDec (pyStrip r.valStr) with
    | some v => dictSet m (compositeKeyOfRow r) v
    | none => m) []

/-- The per-category matching loop of `import_parameter_values` (icr2edit.py
lines 472-483): overwrite `current_vals[i]` for every filtered parameter
whose composite key is in the imported map; also count the matches.  At its
call site the value list always has the same length as the parameter list. -/
def applyMatches (imap : List ((String × String × String × String) × Int)) :
    List Param → List (Option Int) → List (Option Int) × Nat
  | [], rest => (rest, 0)
  | _ :: _, [] => ([], 0)
  | p :: ps, c :: cs =>
    let r := applyMatches imap ps cs
    match dictGet imap (compositeKeyOfParam p) with
    | some v => (some v :: r.1, r.2 + 1)
    | none => (c :: r.1, r.2)

/-- The body of the per-category loop of `import_parameter_values`
(icr2edit.py lines 466-496): reload the baseline from the EXE, apply the
matches, and when at least one value matched store
`(valid_params, current_vals)` in the ChangeSet, adding to `total_updated`. -/
def import_category_step (imap : List ((String × String × String × String) × Int))
    (file : List Nat) (version : String) (acc : ChangeSet × Nat)
    (entry : String × List Param) : Except Unit (ChangeSet × Nat) := do
  let valid_params := filter_parameters entry.2 version
  let current_vals ← load_initial_values valid_params file version
  let res := applyMatches imap valid_params current_vals
  if 0 < res.2 then
    return (dictSet acc.1 entry.1 (valid_params, res.1), acc.2 + res.2)
  else
    return (acc.1, acc.2 + res.2)

/-- `import_parameter_values` (icr2edit.py lines 425-503) on already-parsed
CSV rows: build the imported map (empty map: report and change nothing);
then run the per-category loop over every catalog category.  Returns the
updated ChangeSet and `total_updated`. -/
def import_parameter_values (pbc : List (String × List Param))
    (unsaved : ChangeSet) (rows : List CsvRow) (file : List Nat)
    (version : String) : Except Unit (ChangeSet × Nat) := do
  let imap := buildImportedMap rows
  if imap.isEmpty then return (unsaved, 0)
  pbc.foldlM (import_category_step imap file version) (unsaved, 0)

/-- Placeholder row used only as the (never reached) `getD` default when
indexing a list at a position already checked to be in range. -/
def dummyParam : Param := ⟨"", "", "", "", "", "", ""⟩

/-- The rows `export_selected_parameters` writes for one category
(icr2edit.py lines 532-544): selected indices past the end of the filtered
list are skipped; a missing value defaults to `0`. -/
def export_category_rows (valid_params : List Param)
    (current_vals : List (Option Int)) (selected_rows : List Nat) : List CsvRow :=
  selected_rows.filterMap (fun i =>
    if i < valid_params.length then
      some (mkExportRow (valid_params.getD i dummyParam)
        (current_vals.getD i (some 0)))
    else none)

/-- The body of the per-category loop of `export_selected_parameters`
(icr2edit.py lines 525-544): resolve the category's current values
(`unsaved_changes` entry if its map is nonempty, else a fresh baseline
read) and emit one CSV row per checked index. -/
def export_category_step (pbc : List (String × List Param))
    (unsaved : ChangeSet) (file : List Nat) (version : String)
    (acc : List CsvRow) (entry : String × List Nat) : Except Unit (List CsvRow) := do
  if entry.2.isEmpty then return acc
  let raw_params := (dictGet pbc entry.1).getD []
  let valid_params := filter_parameters raw_params version
  let current_vals ←
    match dictGet unsaved entry.1 with
    | some e =>
      if e.2.isEmpty then load_initial_values valid_params file version
      else Except.ok e.2
    | none => load_initial_values valid_params file version
  return acc ++ export_category_rows valid_params current_vals entry.2

/-- `export_selected_parameters` (icr2edit.py lines 506-546): run the
per-category loop over every checked category. -/
def export_selected_parameters (pbc : List (String × List Param))
    (unsaved : ChangeSet) (checked : List (String × List Nat)) (file : List Nat)
    (version : String) : Except Unit (List CsvRow) :=
  checked.foldlM (export_category_step pbc unsaved file version) []

/-! ### Byte-coding lemmas -/

theorem toLEBytes_length (v w : Nat) : (toLEBytes v w).length = w := by
  induction w generalizing v with
  | zero => rfl
  | succ w ih => simp [toLEBytes, ih]

theorem unpackLE_toLEBytes (v w : Nat) (h : v < 2 ^ (8 * w)) :
    unpackLE (toLEBytes v w) = v := by
  induction w generalizing v with
  | zero =>
    simp only [Nat.mul_zero, pow_zero, Nat.lt_one_iff] at h
    simp [toLEBytes, unpackLE, h]
  | succ w ih =>
    have hpow : (2 : Nat) ^ (8 * (w + 1)) = 2 ^ (8 * w) * 256 := by
      rw [Nat.mul_succ, pow_add]; norm_num
    have hdiv : v / 256 < 2 ^ (8 * w) := by
      rw [Nat.div_lt_iff_lt_mul (by norm_num)]
      omega
    simp only [toLEBytes, unpackLE, ih (v / 256) hdiv]
    omega

theorem drop_writeBytes (file : List Nat) (offset : Nat) (bs : List Nat) :
    (writeBytes file offset bs).drop offset = bs ++ file.drop (offset + bs.length) := by
  have h : writeBytes file offset bs
      = (file.take offset ++ List.replicate (offset - file.length) 0)
        ++ (bs ++ file.drop (offset + bs.length)) := by
    unfold writeBytes
    simp [List.append_assoc]
  rw [h]
  refine List.drop_left' ?_
  rw [List.length_append, List.length_take, List.length_replicate]
  omega

/-- When the address parses to a non-negative offset and the value fits the
width, `write_value_to_exe` succeeds and overwrites exactly the
little-endian encoding (this covers all four width branches). -/
theorem write_value_ok (file : List Nat) (address_hex : String) (w v : Nat)
    (off : Int) (hoff : pyIntHex address_hex = some off) (h0 : 0 ≤ off)
    (hv : v < 2 ^ (8 * w)) :
    write_value_to_exe file address_hex w (v : Int) =
      Except.ok (writeBytes file off.toNat (toLEBytes v w)) := by
  have hneg : ¬ (off < 0) := by omega
  have htn : ((v : Int)).toNat = v := Int.toNat_natCast v
  simp only [write_value_to_exe, hoff, if_neg hneg]
  by_cases h1 : w = 1
  · subst h1
    have : (0 : Int) ≤ (v : Int) ∧ (v : Int) ≤ 0xFF := by
      constructor
      · positivity
      · norm_num at hv ⊢; omega
    simp [this, htn]
  · by_cases h2 : w = 2
    · subst h2
      have : (0 : Int) ≤ (v : Int) ∧ (v : Int) ≤ 0xFFFF := by
        constructor
        · positivity
        · norm_num at hv ⊢; omega
      simp [this, htn, h1]
    · by_cases h4 : w = 4
      · subst h4
        have : (0 : Int) ≤ (v : Int) ∧ (v : Int) ≤ 0xFFFFFFFF := by
          constructor
          · positivity
          · norm_num at hv ⊢; omega
        simp [this, htn, h1, h2]
      · have : (0 : Int) ≤ (v : Int) ∧ (v : Int) < (2 : Int) ^ (8 * w) := by
          constructor
          · positivity
          · exact_mod_cast Nat.cast_lt.mpr hv
        simp [this, htn, h1, h2, h4]

/-- When the address parses to a non-negative offset with at least `w` bytes
after it, `read_value_from_exe` returns the little-endian decode of the `w`
bytes at the offset (this covers all four width branches). -/
theorem read_value_ok (file : List Nat) (address_hex : String) (w : Nat)
    (off : Int) (hoff : pyIntHex address_hex = some off) (h0 : 0 ≤ off)
    (hdata : w ≤ (file.drop off.toNat).length) :
    read_value_from_exe file address_hex w =
      Except.ok (some ((unpackLE ((file.drop off.toNat).take w) : Nat) : Int)) := by
  have hneg : ¬ (off < 0) := by omega
  have hlen : ((file.drop off.toNat).take w).length = w := by
    rw [List.length_take]
    omega
  simp only [read_value_from_exe, hoff, if_neg hneg, hlen]
  split_ifs with hne <;> first | (exact absurd rfl hne) | rfl

/-- C1.  For width `w ∈ {1, 2, 4}`, a value `v < 2^(8w)`, and an address
string parsing to a non-negative offset with `offset + w` bytes inside the
file, writing `v` and re-reading `w` bytes at the same address returns
exactly `v`. -/
theorem read_after_write_roundtrip (file : List Nat) (address_hex : String)
    (w v : Nat) (off : Int) (hw : w = 1 ∨ w = 2 ∨ w = 4)
    (hv : v < 2 ^ (8 * w)) (hoff : pyIntHex address_hex = some off)
    (h0 : 0 ≤ off) (hfit : off.toNat + w ≤ file.length) :
    ∃ file2, write_value_to_exe file address_hex w (v : Int) = Except.ok file2 ∧
      read_value_from_exe file2 address_hex w = Except.ok (some (v : Int)) := by
  refine ⟨writeBytes file off.toNat (toLEBytes v w),
    write_value_ok file address_hex w v off hoff h0 hv, ?_⟩
  have hdw := drop_writeBytes file off.toNat (toLEBytes v w)
  have htake : ((writeBytes file off.toNat (toLEBytes v w)).drop off.toNat).take w
      = toLEBytes v w := by
    rw [hdw, List.take_left' (toLEBytes_length v w)]
  have hdata : w ≤ ((writeBytes file off.toNat (toLEBytes v w)).drop off.toNat).length := by
    rw [hdw]
    simp [toLEBytes_length]
  rw [read_value_ok (writeBytes file off.toNat (toLEBytes v w)) address_hex w off
    hoff h0 hdata, htake, unpackLE_toLEBytes v w hv]

/-- Witness for C1 at `w = 2`, `v = 513`, offset `0x3` in a 6-byte file. -/
theorem read_after_write_roundtrip_witness :
    ∃ file2, write_value_to_exe [9, 9, 9, 9, 9, 9] "3" 2 (513 : Int) = Except.ok file2 ∧
      read_value_from_exe file2 "3" 2 = Except.ok (some (513 : Int)) :=
  read_after_write_roundtrip [9, 9, 9, 9, 9, 9] "3" 2 513 3 (by decide)
    (by norm_num) (by decide) (by decide) (by decide)

/-- C2.  Version identification is an exact-match lookup on the byte length:
1142371 is dos100, 1916928 is windy101, and any length outside the fixed
five-entry table yields `none` (the unrecognized-version failure). -/
theorem identify_exact_match :
    identify_icr2_version 1142371 = some "dos100" ∧
    identify_icr2_version 1916928 = some "windy101" ∧
    ∀ size : Nat, size ≠ 1142371 → size ≠ 1142387 → size ≠ 1247899 →
      size ≠ 1916928 → size ≠ 1109095 → identify_icr2_version size = none := by
  refine ⟨by decide, by decide, ?_⟩
  intro size h1 h2 h3 h4 h5
  simp [identify_icr2_version, EXE_VERSIONS, h1, h2, h3, h4, h5]

/-- Witness for C2 at the concrete unknown length 999. -/
theorem identify_exact_match_witness : identify_icr2_version 999 = none :=
  identify_exact_match.2.2 999 (by decide) (by decide) (by decide) (by decide)
    (by decide)

/-- C8.  When the address string does not parse as hexadecimal,
`write_value_to_exe` returns without raising and the file is unchanged, for
every width and every value. -/
theorem write_invalid_address_noop (file : List Nat) (address_hex : String)
    (length : Nat) (value : Int) (h : pyIntHex address_hex = none) :
    write_value_to_exe file address_hex length value = Except.ok file := by
  simp [write_value_to_exe, h]

/-- Witness for C8 at the concrete non-hex address "xyz". -/
theorem write_invalid_address_noop_witness :
    write_value_to_exe [1, 2, 3] "xyz" 4 7 = Except.ok [1, 2, 3] :=
  write_invalid_address_noop [1, 2, 3] "xyz" 4 7 (by decide)

/-! ### Read-path helper lemmas (shared by several claims) -/

theorem read_parse_fail (file : List Nat) (address_hex : String) (length : Nat)
    (h : pyIntHex address_hex = none) :
    read_value_from_exe file address_hex length = Except.ok none := by
  simp [read_value_from_exe, h]

theorem read_neg_offset (file : List Nat) (address_hex : String) (length : Nat)
    (off : Int) (h : pyIntHex address_hex = some off) (hneg : off < 0) :
    read_value_from_exe file address_hex length = Except.error () := by
  simp [read_value_from_exe, h, hneg]

theorem read_short (file : List Nat) (address_hex : String) (length : Nat)
    (off : Int) (h : pyIntHex address_hex = some off) (h0 : 0 ≤ off)
    (hshort : file.length - off.toNat < length) :
    read_value_from_exe file address_hex length = Except.ok none := by
  have hn : ¬ (off < 0) := by omega
  have hlen : ((file.drop off.toNat).take length).length ≠ length := by
    rw [List.length_take, List.length_drop]
    omega
  simp [read_value_from_exe, h, hn, hlen]
  omega

/-- C9.  For a version string outside the known tags, `filter_parameters`
does not fail: it falls back to the "Windy address" column and keeps, in
order, exactly the rows whose entry there parses as hexadecimal. -/
theorem filter_parameters_unknown_version (parameters : List Param)
    (version : String)
    (h : version ∉ ["dos100", "dos102", "windy101", "rend102", "rend32A"]) :
    filter_parameters parameters version =
      parameters.filter (fun p => (pyIntHex (pyStrip p.windy)).isSome) := by
  simp only [List.mem_cons, List.not_mem_nil, or_false, not_or] at h
  obtain ⟨h1, h2, h3, h4, h5⟩ := h
  simp [filter_parameters, ADDRESS_KEYS, getField, h1, h2, h3, h4, h5]

/-- A row with a hexadecimal Windy address. -/
def paramWindyGood : Param :=
  { description := "a", dataType := "UInt8", lengthStr := "1",
    dos := "", windy := "10", rend := "", rend32 := "" }

/-- A row without a hexadecimal Windy address. -/
def paramWindyBad : Param :=
  { description := "b", dataType := "UInt8", lengthStr := "1",
    dos := "5", windy := "zz", rend := "", rend32 := "" }

/-- Witness for C9 at the concrete unknown version "mystery". -/
theorem filter_parameters_unknown_version_witness :
    filter_parameters [paramWindyGood, paramWindyBad] "mystery" = [paramWindyGood] := by
  rw [filter_parameters_unknown_version [paramWindyGood, paramWindyBad] "mystery"
    (by decide)]
  decide

/-- C7 counterexample: the address "-1" parses as hexadecimal (to the
negative offset -1), yet `read_value_from_exe` neither returns a value nor
`None`: the uncaught `ValueError` raised by `f.seek(-1)` escapes (modelled
by `Except.error ()`), refuting the claim's "returns None rather than
raising ... otherwise returns the little-endian unsigned integer". -/
theorem read_value_raises_cex :
    pyIntHex "-1" = some (-1) ∧
    read_value_from_exe [0, 0] "-1" 1 = Except.error () := by decide

/-- C7 (amended).  `read_value_from_exe` returns `None` when the address
does not parse as hexadecimal; for a parsed non-negative offset it returns
`None` when fewer than `length` bytes are available there and otherwise the
little-endian unsigned integer decoded from exactly the `length` bytes at
the offset; a parsed negative offset raises (escaping `ValueError`). -/
theorem read_value_behavior (file : List Nat) (address_hex : String)
    (length : Nat) :
    (pyIntHex address_hex = none →
      read_value_from_exe file address_hex length = Except.ok none) ∧
    (∀ off : Int, pyIntHex address_hex = some off → off < 0 →
      read_value_from_exe file address_hex length = Except.error ()) ∧
    (∀ off : Int, pyIntHex address_hex = some off → 0 ≤ off →
      file.length - off.toNat < length →
      read_value_from_exe file address_hex length = Except.ok none) ∧
    (∀ off : Int, pyIntHex address_hex = some off → 0 ≤ off →
      length ≤ file.length - off.toNat →
      read_value_from_exe file address_hex length =
        Except.ok (some ((unpackLE ((file.drop off.toNat).take length) : Nat) : Int))) := by
  refine ⟨fun h => read_parse_fail file address_hex length h,
    fun off h hneg => read_neg_offset file address_hex length off h hneg,
    fun off h h0 hshort => read_short file address_hex length off h h0 hshort,
    fun off h h0 hfits => read_value_ok file address_hex length off h h0 ?_⟩
  rw [List.length_drop]
  omega

/-- Witness for C7 exercising all four branches at concrete inputs. -/
theorem read_value_behavior_witness :
    read_value_from_exe [7, 8, 9] "q" 2 = Except.ok none ∧
    read_value_from_exe [7, 8, 9] "-1" 2 = Except.error () ∧
    read_value_from_exe [7, 8, 9] "2" 2 = Except.ok none ∧
    read_value_from_exe [7, 8, 9] "1" 2 = Except.ok (some 2312) :=
  ⟨(read_value_behavior [7, 8, 9] "q" 2).1 (by decide),
   (read_value_behavior [7, 8, 9] "-1" 2).2.1 (-1) (by decide) (by decide),
   (read_value_behavior [7, 8, 9] "2" 2).2.2.1 2 (by decide) (by decide) (by decide),
   (read_value_behavior [7, 8, 9] "1" 2).2.2.2 1 (by decide) (by decide) (by decide)⟩

/-- C10 counterexample: on the one-byte file `[5]` with address "-2"
(which parses to a negative offset), `read_value_from_exe` does not
terminate normally with `None` or an integer: the seek raises. -/
theorem read_totality_cex :
    pyIntHex "-2" = some (-2) ∧
    read_value_from_exe [5] "-2" 1 = Except.error () := by decide

/-- C10 (amended).  For every file, every length, and every address string
that does not parse to a negative offset, `read_value_from_exe` terminates
without raising and returns either `None` or a non-negative integer. -/
theorem read_total_nonneg (file : List Nat) (address_hex : String)
    (length : Nat)
    (h : ∀ off : Int, pyIntHex address_hex = some off → 0 ≤ off) :
    ∃ r : Option Int, read_value_from_exe file address_hex length = Except.ok r ∧
      ∀ v : Int, r = some v → 0 ≤ v := by
  cases hp : pyIntHex address_hex with
  | none => exact ⟨none, read_parse_fail file address_hex length hp, by simp⟩
  | some off =>
    have h0 := h off hp
    by_cases hs : file.length - off.toNat < length
    · exact ⟨none, read_short file address_hex length off hp h0 hs, by simp⟩
    · refine ⟨some ((unpackLE ((file.drop off.toNat).take length) : Nat) : Int),
        read_value_ok file address_hex length off hp h0 ?_, ?_⟩
      · rw [List.length_drop]; omega
      · intro v hv
        rw [Option.some.injEq] at hv
        rw [← hv]
        exact Int.natCast_nonneg _
/-- Witness for C10 at the concrete address "4" on a short file. -/
theorem read_total_nonneg_witness :
    ∃ r : Option Int, read_value_from_exe [5] "4" 2 = Except.ok r ∧
      ∀ v : Int, r = some v → 0 ≤ v :=
  read_total_nonneg [5] "4" 2 (by decide)

/-- Declared byte width of the three numeric type names
(spec: length is derived from the declared type). -/
def typeWidth (data_type : String) : Option Nat :=
  if data_type = "UInt8" then some 1
  else if data_type = "UInt16" then some 2
  else if data_type = "UInt32" then some 4
  else none

/-- C6.  For a parameter whose declared numeric type has byte width `w`,
any typed value outside `[0, 2^(8w) - 1]` makes `prompt_edit_parameter`
fail on the out-of-range path and leave the current-value map unchanged. -/
theorem edit_out_of_range_rejected (index : Nat) (parameters : List Param)
    (current_values : List (Option Int)) (rawInput : String) (p : Param)
    (w : Nat) (v : Int)
    (hp : parameters.get? index = some p)
    (hw : typeWidth (pyStrip p.dataType) = some w)
    (hv : pyIntDec (pyStrip rawInput) = some v)
    (hout : v < 0 ∨ (2 : Int) ^ (8 * w) - 1 < v) :
    prompt_edit_parameter index parameters current_values rawInput =
      (EditResult.outOfRange, current_values) := by
  simp only [prompt_edit_parameter, hp, hv]
  by_cases h8 : pyStrip p.dataType = "UInt8"
  · have hw1 : w = 1 := by simp [typeWidth, h8] at hw; omega
    subst hw1
    norm_num at hout
    simp [h8]
    omega
  · by_cases h16 : pyStrip p.dataType = "UInt16"
    · have hw2 : w = 2 := by simp [typeWidth, h8, h16] at hw; omega
      subst hw2
      norm_num at hout
      simp [h8, h16]
      omega
    · by_cases h32 : pyStrip p.dataType = "UInt32"
      · have hw4 : w = 4 := by simp [typeWidth, h8, h16, h32] at hw; omega
        subst hw4
        norm_num at hout
        simp [h8, h16, h32]
        omega
      · simp [typeWidth, h8, h16, h32] at hw

/-- A UInt16 parameter row. -/
def paramU16 : Param :=
  { description := "gear", dataType := "UInt16", lengthStr := "2",
    dos := "1A", windy := "2B", rend := "3C", rend32 := "" }

/-- Witness for C6: editing a UInt16 parameter to 70000 is rejected and the
stored values are untouched. -/
theorem edit_out_of_range_rejected_witness :
    prompt_edit_parameter 0 [paramU16] [some 5] "70000" =
      (EditResult.outOfRange, [some 5]) :=
  edit_out_of_range_rejected 0 [paramU16] [some 5] "70000" paramU16 2 70000
    (by decide) (by decide) (by decide) (by norm_num)

/-! ### Idempotence of `str.strip` -/

theorem stripRight_eq_rdropWhile (cs : List Char) :
    stripRight cs = cs.rdropWhile isSpaceChar := rfl

theorem pyStripL_idem (cs : List Char) : pyStripL (pyStripL cs) = pyStripL cs := by
  unfold pyStripL stripLeft
  rw [stripRight_eq_rdropWhile, stripRight_eq_rdropWhile]
  set y := cs.dropWhile isSpaceChar with hy
  have hyy : y.dropWhile isSpaceChar = y := by
    rw [hy]
    exact List.dropWhile_idempotent _ _
  set z := y.rdropWhile isSpaceChar with hz
  have hzz : z.dropWhile isSpaceChar = z := by
    rcases hc : z with _ | ⟨c, z'⟩
    · rfl
    · obtain ⟨t, ht⟩ := (List.rdropWhile_prefix isSpaceChar (l := y) : z <+: y)
      rw [← hz, hc] at ht
      have hy' : (c :: (z' ++ t)).dropWhile isSpaceChar = c :: (z' ++ t) := by
        rw [show c :: (z' ++ t) = c :: z' ++ t from rfl, ht]
        exact hyy
      have hpc : isSpaceChar c = false := by
        by_cases hp : isSpaceChar c
        · exfalso
          rw [List.dropWhile_cons, if_pos hp] at hy'
          have hlen := ((z' ++ t).dropWhile_sublist isSpaceChar).length_le
          rw [hy'] at hlen
          simp at hlen
        · simpa using hp
      simp [List.dropWhile_cons, hpc]
  rw [hzz]
  exact List.rdropWhile_idempotent _ _

theorem pyStrip_toList (s : String) : (pyStrip s).toList = pyStripL s.toList := rfl

theorem pyStrip_idem (s : String) : pyStrip (pyStrip s) = pyStrip s := by
  show (⟨pyStripL (pyStrip s).toList⟩ : String) = pyStrip s
  rw [pyStrip_toList, pyStripL_idem]
  rfl

/-! ### C5: the composite key -/

/-- Two rows identical except for their "Rendition DOS32A" offset. -/
def paramKeyA : Param :=
  { description := "k", dataType := "UInt32", lengthStr := "4",
    dos := "1A", windy := "2B", rend := "3C", rend32 := "99" }

/-- Same as `paramKeyA` with a different "Rendition DOS32A" offset. -/
def paramKeyB : Param :=
  { description := "k", dataType := "UInt32", lengthStr := "4",
    dos := "1A", windy := "2B", rend := "3C", rend32 := "AA" }

/-- Same as `paramKeyA` with Length written "04" instead of "4". -/
def paramKeyC : Param :=
  { description := "k", dataType := "UInt32", lengthStr := "04",
    dos := "1A", windy := "2B", rend := "3C", rend32 := "99" }

/-- C5 counterexample: the composite key is not the tuple of all known
per-version offset strings plus the byte length.  `paramKeyA` and
`paramKeyB` differ in their "Rendition DOS32A" offset (a known per-version
offset: `ADDRESS_KEYS` maps rend32A to that column) yet get equal keys; and
`paramKeyA` and `paramKeyC` agree on every offset string and on the byte
length (both 4) yet get different keys, because the key contains the raw
Length field, not the parsed byte length. -/
theorem composite_key_cex :
    (compositeKeyOfParam paramKeyA = compositeKeyOfParam paramKeyB ∧
      paramKeyA.rend32 ≠ paramKeyB.rend32 ∧
      ADDRESS_KEYS "rend32A" = some "Rendition DOS32A") ∧
    (compositeKeyOfParam paramKeyA ≠ compositeKeyOfParam paramKeyC ∧
      paramLength paramKeyA = paramLength paramKeyC ∧
      paramKeyA.dos = paramKeyC.dos ∧ paramKeyA.windy = paramKeyC.windy ∧
      paramKeyA.rend = paramKeyC.rend ∧ paramKeyA.rend32 = paramKeyC.rend32) := by
  decide

/-- C5 (amended).  The composite key used by export and import is the tuple
of the DOS, Windy, and Rendition offset strings (trimmed and uppercased)
plus the trimmed Length field string; the exported row keys to exactly the
same tuple as its source definition (export trims, import trims again and
uppercases), and the key depends on nothing but those four fields — in
particular not on the value being exported, the active version, the data
type, or the Rendition DOS32A offset. -/
theorem composite_key_spec :
    (∀ (p : Param) (v : Option Int),
      compositeKeyOfRow (mkExportRow p v) = compositeKeyOfParam p) ∧
    (∀ p q : Param, p.dos = q.dos → p.windy = q.windy → p.rend = q.rend →
      p.lengthStr = q.lengthStr →
      compositeKeyOfParam p = compositeKeyOfParam q) := by
  constructor
  · intro p v
    simp [compositeKeyOfRow, compositeKeyOfParam, mkExportRow, pyStrip_idem]
  · intro p q h1 h2 h3 h4
    simp [compositeKeyOfParam, h1, h2, h3, h4]

/-- Witness for C5: the exported row of `paramKeyA` (with value 7) keys back
to `paramKeyA`'s own composite key, and `paramKeyB`'s key agrees with it. -/
theorem composite_key_spec_witness :
    compositeKeyOfRow (mkExportRow paramKeyA (some 7)) = compositeKeyOfParam paramKeyA ∧
    compositeKeyOfParam paramKeyB = compositeKeyOfParam paramKeyA :=
  ⟨composite_key_spec.1 paramKeyA (some 7),
   composite_key_spec.2 paramKeyB paramKeyA (by decide) (by decide) (by decide)
     (by decide)⟩

/-! ### C3: category activation and file reads -/

/-- A one-category catalog. -/
def pbcEngine : List (String × List Param) := [("Engine", [paramWindyGood])]

/-- A ChangeSet that already holds an entry for "Engine" with current
value 5 at index 0. -/
def unsavedEngine : ChangeSet := [("Engine", ([paramWindyGood], [some 5]))]

/-- A 17-byte file of 3s (so the baseline at offset 0x10 reads 3, not 5). -/
def fileEngine : List Nat := List.replicate 17 3

/-- C3 counterexample: in the GUI editor (icr2edit.py), selecting a category
that already has a ChangeSet entry does reuse the stored current-value map
([some 5], not the on-disk 3), but it does NOT issue zero file reads:
`populate_params` re-reads the baseline from the EXE (2 reads here — line
598 once, and line 604 once per row) to decide the modified-row
highlighting. -/
theorem activate_rereads_baseline_cex :
    dictGet unsavedEngine "Engine" = some ([paramWindyGood], [some 5]) ∧
    on_category_select pbcEngine unsavedEngine "Engine" fileEngine "windy101" =
      Except.ok ([some 5], 2) ∧
    (2 : Nat) ≠ 0 := by decide

/-- C3 (amended).  Activating a category that already has a ChangeSet entry
reuses the stored current-value map verbatim; in the console editor
(icr2_physedit.py) this issues no file reads at all, while in the GUI editor
(icr2edit.py) the stored map is reused (when nonempty) but
`populate_params` still re-reads baseline values from the file. -/
theorem activate_existing_entry_reuses_map :
    (∀ (pbc : List (String × List Param)) (unsaved : ChangeSet) (cat : String)
      (file : List Nat) (version : String) (raw : List Param)
      (entry : List Param × List (Option Int)),
      dictGet pbc cat = some raw → dictGet unsaved cat = some entry →
      console_select_category pbc unsaved cat file version =
        Except.ok (entry.2, 0)) ∧
    (∀ (pbc : List (String × List Param)) (unsaved : ChangeSet) (cat : String)
      (file : List Nat) (version : String) (raw : List Param)
      (entry : List Param × List (Option Int)) (vs : List (Option Int)),
      dictGet pbc cat = some raw → dictGet unsaved cat = some entry →
      entry.2 ≠ [] →
      load_initial_values (filter_parameters raw version) file version =
        Except.ok vs →
      ∃ reads : Nat,
        on_category_select pbc unsaved cat file version =
          Except.ok (entry.2, reads)) := by
  constructor
  · intro pbc unsaved cat file version raw entry hraw hentry
    simp [console_select_category, hraw, hentry]
  · intro pbc unsaved cat file version raw entry vs hraw hentry hne hload
    refine ⟨loadReads (filter_parameters raw version) version
      + (filter_parameters raw version).length
        * loadReads (filter_parameters raw version) version, ?_⟩
    have hempty : entry.2.isEmpty = false := by
      cases h : entry.2 with
      | nil => exact absurd h hne
      | cons a l => rfl
    simp [on_category_select, hraw, hentry, hempty, hload]
    simp [bind, Except.bind]

/-- Witness for C3 at the concrete one-parameter catalog: both editors
reuse the stored map `[some 5]`. -/
theorem activate_existing_entry_reuses_map_witness :
    console_select_category pbcEngine unsavedEngine "Engine" fileEngine "windy101" =
      Except.ok ([some 5], 0) ∧
    ∃ reads : Nat,
      on_category_select pbcEngine unsavedEngine "Engine" fileEngine "windy101" =
        Except.ok ([some 5], reads) :=
  ⟨activate_existing_entry_reuses_map.1 pbcEngine unsavedEngine "Engine" fileEngine
     "windy101" [paramWindyGood] ([paramWindyGood], [some 5]) (by decide) (by decide),
   activate_existing_entry_reuses_map.2 pbcEngine unsavedEngine "Engine" fileEngine
     "windy101" [paramWindyGood] ([paramWindyGood], [some 5]) [some 3] (by decide)
     (by decide) (by decide) (by decide)⟩

/-! ### `int(str(v))` round trip -/

theorem natDecListAux_fuel (f1 f2 n : Nat) (h1 : n < f1) (h2 : n < f2) :
    natDecListAux f1 n = natDecListAux f2 n := by
  induction f1 generalizing f2 n with
  | zero => omega
  | succ f1 ih =>
    cases f2 with
    | zero => omega
    | succ f2 =>
      simp only [natDecListAux]
      by_cases h : n < 10
      · simp [h]
      · have hn : 0 < n := by omega
        have hd : n / 10 < n := Nat.div_lt_self hn (by norm_num)
        simp only [h, if_false]
        rw [ih f2 (n / 10) (by omega) (by omega)]

theorem natDecList_eq (n : Nat) :
    natDecList n = if n < 10 then [natDigitChar n]
      else natDecList (n / 10) ++ [natDigitChar (n % 10)] := by
  have hstep : natDecListAux (n + 1) n = if n < 10 then [natDigitChar n]
      else natDecListAux n (n / 10) ++ [natDigitChar (n % 10)] := rfl
  by_cases h : n < 10
  · show natDecListAux (n + 1) n = _
    rw [hstep, if_pos h, if_pos h]
  · have hn : 0 < n := by omega
    have hd : n / 10 < n := Nat.div_lt_self hn (by norm_num)
    show natDecListAux (n + 1) n = _
    rw [hstep, if_neg h, if_neg h]
    congr 1
    exact natDecListAux_fuel n (n / 10 + 1) (n / 10) (by omega) (by omega)

theorem natDigitChar_isDigit (d : Nat) : (natDigitChar d).isDigit = true := by
  unfold natDigitChar
  split_ifs <;> decide

theorem digitVal_natDigitChar (d : Nat) (h : d < 10) :
    digitVal (natDigitChar d) = d := by
  unfold natDigitChar
  split_ifs with h0 h1 h2 h3 h4 h5 h6 h7 h8
  · simp [h0, digitVal]
  · simp [h1, digitVal]
  · simp [h2, digitVal]
  · simp [h3, digitVal]
  · simp [h4, digitVal]
  · simp [h5, digitVal]
  · simp [h6, digitVal]
  · simp [h7, digitVal]
  · simp [h8, digitVal]
  · have : d = 9 := by omega
    simp [this, digitVal]

theorem natDecList_all_digits (n : Nat) :
    ∀ c ∈ natDecList n, c.isDigit = true := by
  induction n using Nat.strong_induction_on with
  | _ n ih =>
    rw [natDecList_eq]
    by_cases h : n < 10
    · simp [h, natDigitChar_isDigit]
    · have hn : 0 < n := by omega
      have hd : n / 10 < n := Nat.div_lt_self hn (by norm_num)
      simp only [h, if_false]
      intro c hc
      rcases List.mem_append.mp hc with hc | hc
      · exact ih (n / 10) hd c hc
      · rcases List.mem_singleton.mp hc with rfl
        exact natDigitChar_isDigit _

theorem natDecList_ne_nil (n : Nat) : natDecList n ≠ [] := by
  rw [natDecList_eq]
  split_ifs <;> simp

theorem natDecList_foldl (n : Nat) : ∀ acc : Nat,
    (natDecList n).foldl (fun a c => 10 * a + digitVal c) acc
      = acc * 10 ^ (natDecList n).length + n := by
  induction n using Nat.strong_induction_on with
  | _ n ih =>
    intro acc
    rw [natDecList_eq]
    by_cases h : n < 10
    · simp [h, List.foldl, digitVal_natDigitChar n h]
      ring
    · have hn : 0 < n := by omega
      have hd : n / 10 < n := Nat.div_lt_self hn (by norm_num)
      have hm : n % 10 < 10 := Nat.mod_lt _ (by norm_num)
      simp only [h, if_false, List.foldl_append, List.foldl_cons, List.foldl_nil,
        List.length_append, List.length_cons, List.length_nil]
      rw [ih (n / 10) hd acc, digitVal_natDigitChar (n % 10) hm]
      have : acc * 10 ^ ((natDecList (n / 10)).length + (0 + 1))
          = (acc * 10 ^ (natDecList (n / 10)).length) * 10 := by
        ring
      rw [this]
      omega

theorem isDigit_ne_underscore (c : Char) (h : c.isDigit = true) : c ≠ '_' := by
  intro hc
  rw [hc] at h
  exact absurd h (by decide)

theorem decUAux_all_digits (cs : List Char) : ∀ acc : Nat,
    (∀ c ∈ cs, c.isDigit = true) →
    decUAux acc cs = some (cs.foldl (fun a c => 10 * a + digitVal c) acc) := by
  induction cs with
  | nil => intro acc _; rfl
  | cons c cs ih =>
    intro acc h
    have hc : c.isDigit = true := h c (List.mem_cons_self c cs)
    have hne : ¬ (c = '_') := isDigit_ne_underscore c hc
    rw [decUAux.eq_def]
    simp only [hne, if_false, hc, if_true, List.foldl_cons]
    exact ih (10 * acc + digitVal c) (fun d hd => h d (List.mem_cons_of_mem c hd))

theorem decUDigits_natDecList (n : Nat) : decUDigits (natDecList n) = some n := by
  rcases hc : natDecList n with _ | ⟨c, rest⟩
  · exact absurd hc (natDecList_ne_nil n)
  · have hall := natDecList_all_digits n
    rw [hc] at hall
    have hcdig : c.isDigit = true := hall c (List.mem_cons_self c rest)
    simp only [decUDigits, hcdig, if_true]
    rw [decUAux_all_digits rest (digitVal c)
      (fun d hd => hall d (List.mem_cons_of_mem c hd))]
    have hfold := natDecList_foldl n 0
    rw [hc] at hfold
    simp only [List.foldl_cons] at hfold
    exact congrArg some (by simpa using hfold)

theorem isSpaceChar_of_digit_false (c : Char) (h : c.isDigit = true) :
    isSpaceChar c = false := by
  by_contra hc
  have hc' : isSpaceChar c = true := by
    cases hx : isSpaceChar c
    · exact absurd hx hc
    · rfl
  have hd : ((((c = ' ' ∨ c = '\t') ∨ c = '\n') ∨ c = '\r') ∨ c = '\x0b') ∨ c = '\x0c' := by
    simpa [isSpaceChar] using hc'
  rcases hd with ((((rfl | rfl) | rfl) | rfl) | rfl) | rfl <;> exact absurd h (by decide)

theorem pyStripL_eq_self (cs : List Char)
    (h : ∀ c ∈ cs, isSpaceChar c = false) : pyStripL cs = cs := by
  have hleft : ∀ ds : List Char, (∀ c ∈ ds, isSpaceChar c = false) →
      ds.dropWhile isSpaceChar = ds := by
    intro ds hds
    cases ds with
    | nil => rfl
    | cons d ds' =>
      rw [List.dropWhile_cons, hds d (List.mem_cons_self d ds')]
      simp
  unfold pyStripL stripLeft stripRight
  rw [hleft cs h, hleft cs.reverse (fun c hc => h c (List.mem_reverse.mp hc)),
    List.reverse_reverse]

theorem intToDecL_no_space (v : Int) :
    ∀ c ∈ intToDecL v, isSpaceChar c = false := by
  intro c hc
  unfold intToDecL at hc
  split_ifs at hc with hv
  · rcases List.mem_cons.mp hc with rfl | hc
    · decide
    · exact isSpaceChar_of_digit_false c (natDecList_all_digits _ c hc)
  · exact isSpaceChar_of_digit_false c (natDecList_all_digits _ c hc)

theorem pyIntDecL_intToDecL (v : Int) : pyIntDecL (intToDecL v) = some v := by
  unfold pyIntDecL
  rw [pyStripL_eq_self (intToDecL v) (intToDecL_no_space v)]
  by_cases hv : v < 0
  · have hform : intToDecL v = '-' :: natDecList (-v).toNat := by
      unfold intToDecL
      rw [if_pos hv]
    rw [hform]
    split
    · next rest' heq => exact absurd (List.cons.inj heq).1 (by decide)
    · next rest' heq =>
        rw [← (List.cons.inj heq).2, decUDigits_natDecList]
        simp
        omega
    · next h1 h2 => exact absurd rfl (h2 (natDecList (-v).toNat))
  · have hform : intToDecL v = natDecList v.toNat := by
      unfold intToDecL
      rw [if_neg hv]
    rcases hc : natDecList v.toNat with _ | ⟨c, rest⟩
    · exact absurd hc (natDecList_ne_nil _)
    · have hcdig : c.isDigit = true := by
        have := natDecList_all_digits v.toNat
        rw [hc] at this
        exact this c (List.mem_cons_self c rest)
      have hplus : c ≠ '+' := by
        intro hcc
        rw [hcc] at hcdig
        exact absurd hcdig (by decide)
      have hminus : c ≠ '-' := by
        intro hcc
        rw [hcc] at hcdig
        exact absurd hcdig (by decide)
      rw [hform, hc]
      have hdec : decUDigits (c :: rest) = some v.toNat := by
        rw [← hc]
        exact decUDigits_natDecList v.toNat
      split
      · next rest' heq =>
          exact absurd (List.cons.inj heq).1 hplus
      · next rest' heq =>
          exact absurd (List.cons.inj heq).1 hminus
      · next h1 h2 =>
          rw [hdec]
          show some ((v.toNat : Nat) : Int) = some v
          rw [Int.toNat_of_nonneg (by omega)]

theorem pyIntDec_pyStrip_intToDec (v : Int) :
    pyIntDec (pyStrip (intToDec v)) = some v := by
  have h1 : (pyStrip (intToDec v)).toList = intToDecL v := by
    rw [pyStrip_toList]
    show pyStripL (intToDecL v) = intToDecL v
    exact pyStripL_eq_self _ (intToDecL_no_space v)
  unfold pyIntDec
  rw [h1]
  exact pyIntDecL_intToDecL v

/-! ### C4: export/import round trip -/

/-- First row of the C4 scenario (valid Windy address 0x10, width 1). -/
def paramCx0 : Param :=
  { description := "p0", dataType := "UInt8", lengthStr := "1",
    dos := "", windy := "10", rend := "", rend32 := "" }

/-- Second row of the C4 scenario (valid Windy address 0x11, width 1). -/
def paramCx1 : Param :=
  { description := "p1", dataType := "UInt8", lengthStr := "1",
    dos := "", windy := "11", rend := "", rend32 := "" }

/-- One-category catalog with the two C4 rows. -/
def pbcCx : List (String × List Param) := [("Cat", [paramCx0, paramCx1])]

/-- A reachable ChangeSet: index 0 holds an unknown value (`None`, as a
baseline read of a truncated file produces), index 1 was edited to 7. -/
def changeSetCx : ChangeSet := [("Cat", ([paramCx0, paramCx1], [none, some 7]))]

/-- Every parameter of the ChangeSet is selected for export. -/
def checkedCx : List (String × List Nat) := [("Cat", [0, 1])]

/-- An 18-byte file whose bytes at 0x10 and 0x11 are 42 and 9. -/
def fileCx : List Nat := List.replicate 16 0 ++ [42, 9]

/-- C4 counterexample: the two parameters have valid, distinct composite
keys, yet `import(export(S))` does not reproduce S's current-value
assignments.  The `None` at index 0 is exported as an empty Value field,
the import skips that row, and index 0 ends up with the baseline re-read
from the file (42) instead of S's `None`. -/
theorem export_import_roundtrip_cex :
    compositeKeyOfParam paramCx0 ≠ compositeKeyOfParam paramCx1 ∧
    export_selected_parameters pbcCx changeSetCx checkedCx fileCx "windy101" =
      Except.ok [mkExportRow paramCx0 none, mkExportRow paramCx1 (some 7)] ∧
    import_parameter_values pbcCx []
        [mkExportRow paramCx0 none, mkExportRow paramCx1 (some 7)] fileCx
        "windy101" =
      Except.ok ([("Cat", ([paramCx0, paramCx1], [some 42, some 7]))], 1) ∧
    dictGet changeSetCx "Cat" = some ([paramCx0, paramCx1], [none, some 7]) ∧
    ([some (42 : Int), some 7] : List (Option Int)) ≠ [none, some 7] := by
  decide

/-! Dictionary lemmas. -/

theorem dictGet_dictSet_self {κ α : Type} [DecidableEq κ] (m : List (κ × α))
    (k : κ) (v : α) : dictGet (dictSet m k v) k = some v := by
  induction m with
  | nil => simp [dictGet, dictSet]
  | cons e rest ih =>
    by_cases h : e.1 = k
    · simp [dictSet, h, dictGet]
    · simp [dictSet, h, dictGet, ih]

theorem dictGet_dictSet_ne {κ α : Type} [DecidableEq κ] (m : List (κ × α))
    (k k' : κ) (v : α) (h : k ≠ k') :
    dictGet (dictSet m k v) k' = dictGet m k' := by
  induction m with
  | nil => simp [dictGet, dictSet, h]
  | cons e rest ih =>
    by_cases he : e.1 = k
    · simp [dictSet, he, dictGet, h]
    · simp only [dictSet, he, if_false, dictGet]
      by_cases he' : e.1 = k'
      · simp [he']
      · simp [he', ih]

theorem dictGet_mem {κ α : Type} [DecidableEq κ] :
    ∀ (m : List (κ × α)) (k : κ) (a : α), dictGet m k = some a → (k, a) ∈ m := by
  intro m
  induction m with
  | nil => intro k a h; cases h
  | cons e rest ih =>
    intro k a h
    by_cases he : e.1 = k
    · simp only [dictGet, he, if_true, Option.some.injEq] at h
      have : (k, a) = e := by
        rw [← he, ← h]
      rw [this]
      exact List.mem_cons_self e rest
    · simp only [dictGet, he, if_false] at h
      exact List.mem_cons_of_mem e (ih k a h)

theorem dictGet_self_of_nodup {κ α : Type} [DecidableEq κ] :
    ∀ (S : List (κ × α)), (S.map Prod.fst).Nodup →
    ∀ e ∈ S, dictGet S e.1 = some e.2 := by
  intro S
  induction S with
  | nil => intro _ e he; cases he
  | cons f S ih =>
    intro h e he
    rw [List.map_cons, List.nodup_cons] at h
    rcases List.mem_cons.mp he with rfl | he'
    · simp [dictGet]
    · have hne : f.1 ≠ e.1 := by
        intro hq
        exact h.1 (hq ▸ List.mem_map_of_mem Prod.fst he')
      simp [dictGet, hne, ih h.2 e he']

theorem getD_mem_of_lt {α : Type} (l : List α) (i : Nat) (d : α)
    (h : i < l.length) : l.getD i d ∈ l := by
  rw [List.getD_eq_get l d h]
  exact List.get_mem l i h

theorem map_getD_range {α : Type} : ∀ (l : List α) (d : α),
    (List.range l.length).map (fun i => l.getD i d) = l := by
  intro l
  induction l with
  | nil => intro d; rfl
  | cons a l ih =>
    intro d
    rw [List.length_cons, List.range_succ_eq_map, List.map_cons, List.map_map]
    have hcomp : ((fun i => (a :: l).getD i d) ∘ Nat.succ) = fun i => l.getD i d := by
      funext i
      simp [Function.comp, List.getD_cons_succ]
    rw [hcomp, ih d]
    rfl

theorem map_getD_range' {α β : Type} (l : List α) (d : α) (f : α → β) :
    (List.range l.length).map (fun i => f (l.getD i d)) = l.map f := by
  have h := congrArg (List.map f) (map_getD_range l d)
  rw [List.map_map] at h
  exact h

theorem filterMap_eq_map_of_forall {α β : Type} (f : α → Option β) (g : α → β) :
    ∀ (l : List α), (∀ a ∈ l, f a = some (g a)) → l.filterMap f = l.map g := by
  intro l
  induction l with
  | nil => intro _; rfl
  | cons a l ih =>
    intro h
    rw [List.filterMap_cons, h a (List.mem_cons_self a l), List.map_cons,
      ih (fun b hb => h b (List.mem_cons_of_mem a hb))]

theorem export_category_rows_range (valid : List Param) (vals : List (Option Int)) :
    export_category_rows valid vals (List.range valid.length) =
      (List.range valid.length).map (fun i =>
        mkExportRow (valid.getD i dummyParam) (vals.getD i (some 0))) := by
  unfold export_category_rows
  apply filterMap_eq_map_of_forall
  intro i hi
  rw [List.mem_range] at hi
  simp [hi]

theorem mapM_except_ok_length {α β : Type} (f : α → Except Unit β) :
    ∀ (xs : List α) (ys : List β), xs.mapM f = Except.ok ys → ys.length = xs.length := by
  intro xs
  induction xs with
  | nil =>
    intro ys h
    rw [List.mapM_nil] at h
    cases h
    rfl
  | cons x xs ih =>
    intro ys h
    rw [List.mapM_cons] at h
    cases hfx : f x with
    | error e =>
      rw [hfx] at h
      simp [bind, Except.bind] at h
    | ok b =>
      rw [hfx] at h
      cases hrest : List.mapM f xs with
      | error e =>
        rw [hrest] at h
        simp [bind, Except.bind] at h
      | ok bs =>
        rw [hrest] at h
        simp only [bind, Except.bind, pure, Except.pure, Except.ok.injEq] at h
        rw [← h, List.length_cons, ih bs hrest, List.length_cons]

theorem load_initial_values_ok_length (params : List Param) (file : List Nat)
    (version : String) (vs : List (Option Int))
    (h : load_initial_values params file version = Except.ok vs) :
    vs.length = params.length := by
  unfold load_initial_values at h
  cases hA : ADDRESS_KEYS version with
  | none => rw [hA] at h; cases h
  | some col => rw [hA] at h; exact mapM_except_ok_length _ params vs h

theorem forall₂_of_getD {α β : Type} (P : α → β → Prop) (d1 : α) (d2 : β) :
    ∀ (l1 : List α) (l2 : List β), l1.length = l2.length →
    (∀ i, i < l1.length → P (l1.getD i d1) (l2.getD i d2)) →
    List.Forall₂ P l1 l2 := by
  intro l1
  induction l1 with
  | nil =>
    intro l2 hlen _
    cases l2 with
    | nil => exact List.Forall₂.nil
    | cons b l2 => simp at hlen
  | cons a l1 ih =>
    intro l2 hlen hP
    cases l2 with
    | nil => simp at hlen
    | cons b l2 =>
      refine List.Forall₂.cons (hP 0 (by simp)) ?_
      refine ih l2 (by simpa using hlen) ?_
      intro i hi
      have := hP (i + 1) (by simpa using Nat.succ_lt_succ hi)
      simpa [List.getD_cons_succ] using this

/-- One step of `buildImportedMap`'s fold. -/
def importStep (m : List ((String × String × String × String) × Int))
    (r : CsvRow) : List ((String × String × String × String) × Int) :=
  match pyIntDec (pyStrip r.valStr) with
  | some v => dictSet m (compositeKeyOfRow r) v
  | none => m

theorem buildImportedMap_eq_foldl (rows : List CsvRow) :
    buildImportedMap rows = rows.foldl importStep [] := rfl

theorem foldl_importStep_preserve :
    ∀ (rows : List CsvRow) (m : List ((String × String × String × String) × Int))
      (k : String × String × String × String),
    (∀ r ∈ rows, compositeKeyOfRow r ≠ k) →
    dictGet (rows.foldl importStep m) k = dictGet m k := by
  intro rows
  induction rows with
  | nil => intro m k _; rfl
  | cons r rows ih =>
    intro m k h
    rw [List.foldl_cons,
      ih (importStep m r) k (fun r' hr' => h r' (List.mem_cons_of_mem r hr'))]
    unfold importStep
    cases hv : pyIntDec (pyStrip r.valStr) with
    | none => rfl
    | some v =>
      exact dictGet_dictSet_ne m (compositeKeyOfRow r) k v
        (h r (List.mem_cons_self r rows))

theorem buildImportedMap_lookup (rows : List CsvRow) (r : CsvRow) (v : Int)
    (hr : r ∈ rows) (hnodup : (rows.map compositeKeyOfRow).Nodup)
    (hv : pyIntDec (pyStrip r.valStr) = some v) :
    dictGet (buildImportedMap rows) (compositeKeyOfRow r) = some v := by
  obtain ⟨pre, post, rfl⟩ := List.append_of_mem hr
  rw [buildImportedMap_eq_foldl, List.foldl_append, List.foldl_cons]
  have hkeys : compositeKeyOfRow r ∉ post.map compositeKeyOfRow := by
    rw [List.map_append, List.map_cons] at hnodup
    have h2 : (compositeKeyOfRow r :: post.map compositeKeyOfRow).Nodup :=
      (List.sublist_append_right _ _).nodup hnodup
    exact (List.nodup_cons.mp h2).1
  rw [foldl_importStep_preserve post _ _
    (fun r' hr' heq => hkeys (by rw [← heq]; exact List.mem_map_of_mem _ hr'))]
  unfold importStep
  rw [hv]
  exact dictGet_dictSet_self _ _ _

theorem buildImportedMap_none (rows : List CsvRow)
    (k : String × String × String × String)
    (h : ∀ r ∈ rows, compositeKeyOfRow r ≠ k) :
    dictGet (buildImportedMap rows) k = none := by
  rw [buildImportedMap_eq_foldl, foldl_importStep_preserve rows [] k h]
  rfl

/-- The composite key of an exported row equals the source definition's
composite key (strip is idempotent; export strips, import strips again and
uppercases). -/
theorem compositeKeyOfRow_mkExportRow (p : Param) (v : Option Int) :
    compositeKeyOfRow (mkExportRow p v) = compositeKeyOfParam p := by
  simp [compositeKeyOfRow, compositeKeyOfParam, mkExportRow, pyStrip_idem]

theorem applyMatches_cons_cons
    (imap : List ((String × String × String × String) × Int)) (p : Param)
    (ps : List Param) (c : Option Int) (cs : List (Option Int)) :
    applyMatches imap (p :: ps) (c :: cs) =
      (match dictGet imap (compositeKeyOfParam p) with
       | some v => (some v :: (applyMatches imap ps cs).1,
           (applyMatches imap ps cs).2 + 1)
       | none => (c :: (applyMatches imap ps cs).1,
           (applyMatches imap ps cs).2)) := rfl

theorem applyMatches_none
    (imap : List ((String × String × String × String) × Int)) :
    ∀ (ps : List Param) (cur : List (Option Int)),
    (∀ p ∈ ps, dictGet imap (compositeKeyOfParam p) = none) →
    applyMatches imap ps cur = (cur, 0) := by
  intro ps
  induction ps with
  | nil => intro cur _; rfl
  | cons p ps ih =>
    intro cur h
    cases cur with
    | nil => rfl
    | cons c cs =>
      rw [applyMatches_cons_cons, h p (List.mem_cons_self p ps),
        ih cs (fun q hq => h q (List.mem_cons_of_mem p hq))]

theorem applyMatches_all
    (imap : List ((String × String × String × String) × Int)) :
    ∀ (ps : List Param) (cur vals : List (Option Int)),
    cur.length = ps.length →
    List.Forall₂ (fun p ov => ∃ v : Int, ov = some v ∧
      dictGet imap (compositeKeyOfParam p) = some v) ps vals →
    applyMatches imap ps cur = (vals, ps.length) := by
  intro ps
  induction ps with
  | nil =>
    intro cur vals hlen hf
    cases hf
    cases cur with
    | nil => rfl
    | cons c cs => simp at hlen
  | cons p ps ih =>
    intro cur vals hlen hf
    cases hf with
    | cons h1 h2 =>
      cases cur with
      | nil => simp at hlen
      | cons c cs =>
        obtain ⟨v, rfl, hget⟩ := h1
        rw [applyMatches_cons_cons, hget,
          ih cs _ (by simpa using hlen) h2]
        rfl

theorem export_eval (pbc : List (String × List Param)) (S : ChangeSet)
    (file : List Nat) (version : String) :
    ∀ (T : ChangeSet) (acc : List CsvRow),
    (∀ e ∈ T, dictGet S e.1 = some e.2) →
    (∀ e ∈ T, ∃ raw, dictGet pbc e.1 = some raw ∧
      e.2.1 = filter_parameters raw version) →
    (∀ e ∈ T, e.2.2 ≠ [] ∧ e.2.1 ≠ []) →
    (T.map (fun e => (e.1, List.range e.2.1.length))).foldlM
        (export_category_step pbc S file version) acc =
      Except.ok (acc ++ T.flatMap (fun e => (List.range e.2.1.length).map (fun i =>
        mkExportRow (e.2.1.getD i dummyParam) (e.2.2.getD i (some 0))))) := by
  intro T
  induction T with
  | nil =>
    intro acc _ _ _
    simp [List.foldlM_nil, pure, Except.pure]
  | cons e T ih =>
    intro acc hS hdom hne
    obtain ⟨raw, hraw, hfilter⟩ := hdom e (List.mem_cons_self e T)
    obtain ⟨hv2, hv1⟩ := hne e (List.mem_cons_self e T)
    have hSe := hS e (List.mem_cons_self e T)
    have hrangeE : (List.range e.2.1.length).isEmpty = false := by
      cases hq : List.range e.2.1.length with
      | nil =>
        have hlen0 : e.2.1.length = 0 := by
          have := congrArg List.length hq
          simpa using this
        exact absurd (List.length_eq_zero.mp hlen0) hv1
      | cons a l => rfl
    have hvE : e.2.2.isEmpty = false := by
      cases hq : e.2.2 with
      | nil => exact absurd hq hv2
      | cons a l => rfl
    have hstep : export_category_step pbc S file version acc
        (e.1, List.range e.2.1.length) =
        Except.ok (acc ++ export_category_rows e.2.1 e.2.2
          (List.range e.2.1.length)) := by
      unfold export_category_step
      simp only [hrangeE, hraw, hSe, hvE, Option.getD_some, Bool.false_eq_true,
        if_false, bind, Except.bind, pure, Except.pure]
      rw [← hfilter]
    rw [List.map_cons, List.foldlM_cons, hstep]
    simp only [bind, Except.bind]
    rw [ih (acc ++ export_category_rows e.2.1 e.2.2 (List.range e.2.1.length))
      (fun f hf => hS f (List.mem_cons_of_mem e hf))
      (fun f hf => hdom f (List.mem_cons_of_mem e hf))
      (fun f hf => hne f (List.mem_cons_of_mem e hf))]
    rw [export_category_rows_range, List.flatMap_cons, List.append_assoc]

theorem import_fold_eval (imap : List ((String × String × String × String) × Int))
    (file : List Nat) (version : String) (S : ChangeSet) :
    ∀ (P : List (String × List Param)) (u : ChangeSet) (t : Nat),
    (P.map Prod.fst).Nodup →
    (∀ e ∈ P, ∃ vs, load_initial_values (filter_parameters e.2 version) file
      version = Except.ok vs) →
    (∀ e ∈ P,
      (∃ entry, dictGet S e.1 = some entry ∧
        entry.1 = filter_parameters e.2 version ∧ entry.2 ≠ [] ∧
        List.Forall₂ (fun p ov => ∃ v : Int, ov = some v ∧
          dictGet imap (compositeKeyOfParam p) = some v) entry.1 entry.2) ∨
      (dictGet S e.1 = none ∧ ∀ p ∈ filter_parameters e.2 version,
        dictGet imap (compositeKeyOfParam p) = none)) →
    ∃ u' t', P.foldlM (import_category_step imap file version) (u, t) =
        Except.ok (u', t') ∧
      (∀ cat entry, dictGet S cat = some entry → cat ∈ P.map Prod.fst →
        dictGet u' cat = some entry) ∧
      (∀ cat, dictGet S cat = none ∨ cat ∉ P.map Prod.fst →
        dictGet u' cat = dictGet u cat) := by
  intro P
  induction P with
  | nil =>
    intro u t _ _ _
    refine ⟨u, t, by simp [List.foldlM_nil, pure, Except.pure], ?_, ?_⟩
    · intro cat entry _ hmem
      simp at hmem
    · intro cat _
      rfl
  | cons e P ih =>
    intro u t hnodup hload hcase
    rw [List.map_cons, List.nodup_cons] at hnodup
    obtain ⟨vs, hvs⟩ := hload e (List.mem_cons_self e P)
    have hvslen := load_initial_values_ok_length _ _ _ _ hvs
    rcases hcase e (List.mem_cons_self e P) with
      ⟨entry, hSent, hfilt, hne2, hf2⟩ | ⟨hSnone, hnone⟩
    · have hf2' : List.Forall₂ (fun p ov => ∃ v : Int, ov = some v ∧
          dictGet imap (compositeKeyOfParam p) = some v)
          (filter_parameters e.2 version) entry.2 := by
        rw [← hfilt]
        exact hf2
      have happ : applyMatches imap (filter_parameters e.2 version) vs =
          (entry.2, (filter_parameters e.2 version).length) :=
        applyMatches_all imap _ vs entry.2 hvslen hf2'
      have hlenpos : 0 < (filter_parameters e.2 version).length := by
        have hlq := hf2.length_eq
        rw [hfilt] at hlq
        rw [hlq]
        exact List.length_pos.mpr hne2
      have hstep : import_category_step imap file version (u, t) e =
          Except.ok (dictSet u e.1 (filter_parameters e.2 version, entry.2),
            t + (filter_parameters e.2 version).length) := by
        unfold import_category_step
        simp only [hvs, bind, Except.bind, happ]
        simp [hlenpos, pure, Except.pure]
      have hentry_eq : (filter_parameters e.2 version, entry.2) = entry := by
        rw [← hfilt]
      rw [List.foldlM_cons, hstep]
      simp only [bind, Except.bind]
      obtain ⟨u', t', hfold, ha, hb⟩ :=
        ih (dictSet u e.1 (filter_parameters e.2 version, entry.2))
          (t + (filter_parameters e.2 version).length) hnodup.2
          (fun f hf => hload f (List.mem_cons_of_mem e hf))
          (fun f hf => hcase f (List.mem_cons_of_mem e hf))
      refine ⟨u', t', hfold, ?_, ?_⟩
      · intro cat entry' hScat hmem
        rw [List.map_cons] at hmem
        rcases List.mem_cons.mp hmem with rfl | hmem'
        · have hee : entry' = entry := by
            rw [hScat] at hSent
            exact Option.some.inj hSent
          rw [hb e.1 (Or.inr hnodup.1), dictGet_dictSet_self, hentry_eq, hee]
        · exact ha cat entry' hScat hmem'
      · intro cat hcat
        have hcat' : dictGet S cat = none ∨ cat ∉ P.map Prod.fst := by
          rcases hcat with h | h
          · exact Or.inl h
          · right
            intro hmem
            exact h (by rw [List.map_cons]; exact List.mem_cons_of_mem _ hmem)
        rw [hb cat hcat']
        have hnec : e.1 ≠ cat := by
          rcases hcat with h | h
          · intro hq
            rw [← hq, hSent] at h
            cases h
          · intro hq
            exact h (by rw [List.map_cons, ← hq]; exact List.mem_cons_self _ _)
        exact dictGet_dictSet_ne u e.1 cat _ hnec
    · have happ : applyMatches imap (filter_parameters e.2 version) vs =
          (vs, 0) := applyMatches_none imap _ vs hnone
      have hstep : import_category_step imap file version (u, t) e =
          Except.ok (u, t) := by
        unfold import_category_step
        simp only [hvs, bind, Except.bind, happ]
        simp [pure, Except.pure]
      rw [List.foldlM_cons, hstep]
      simp only [bind, Except.bind]
      obtain ⟨u', t', hfold, ha, hb⟩ := ih u t hnodup.2
        (fun f hf => hload f (List.mem_cons_of_mem e hf))
        (fun f hf => hcase f (List.mem_cons_of_mem e hf))
      refine ⟨u', t', hfold, ?_, ?_⟩
      · intro cat entry' hScat hmem
        rw [List.map_cons] at hmem
        rcases List.mem_cons.mp hmem with rfl | hmem'
        · rw [hSnone] at hScat
          cases hScat
        · exact ha cat entry' hScat hmem'
      · intro cat hcat
        apply hb
        rcases hcat with h | h
        · exact Or.inl h
        · right
          intro hm
          exact h (by rw [List.map_cons]; exact List.mem_cons_of_mem _ hm)

theorem dictGet_mem_fst {κ α : Type} [DecidableEq κ] (m : List (κ × α)) (k : κ)
    (a : α) (h : dictGet m k = some a) : k ∈ m.map Prod.fst :=
  List.mem_map.mpr ⟨(k, a), dictGet_mem m k a h, rfl⟩

/-- C4 (amended).  For a fixed version whose reads all succeed, a catalog
with distinct category names, and a ChangeSet `S` whose entries snapshot
their categories' filtered parameters, whose current values are all known
integers (no `None`), and whose composite keys are valid (pairwise distinct
across `S` and not shared by any parameter of a category outside `S`),
exporting every parameter of `S` and importing the resulting rows against
the same catalog from a fresh session reproduces exactly the same
current-value assignments as `S`: every category of `S` ends with an
identical ChangeSet entry and no other category acquires one. -/
theorem export_import_roundtrip (pbc : List (String × List Param)) (S : ChangeSet)
    (file : List Nat) (version : String) (checked : List (String × List Nat))
    (hpbcN : (pbc.map Prod.fst).Nodup)
    (hSN : (S.map Prod.fst).Nodup)
    (hdom : ∀ e ∈ S, ∃ raw, dictGet pbc e.1 = some raw ∧
      e.2.1 = filter_parameters raw version)
    (hlen : ∀ e ∈ S, e.2.2.length = e.2.1.length)
    (hner : ∀ e ∈ S, e.2.2 ≠ [])
    (hsome : ∀ e ∈ S, ∀ ov ∈ e.2.2, ov ≠ none)
    (hchk : checked = S.map (fun e => (e.1, List.range e.2.1.length)))
    (hkeys : (S.flatMap (fun e => e.2.1.map compositeKeyOfParam)).Nodup)
    (hdisj : ∀ e ∈ pbc, dictGet S e.1 = none →
      ∀ p ∈ filter_parameters e.2 version,
      compositeKeyOfParam p ∉ S.flatMap (fun e => e.2.1.map compositeKeyOfParam))
    (hreads : ∀ e ∈ pbc, ∃ vs,
      load_initial_values (filter_parameters e.2 version) file version =
        Except.ok vs) :
    ∃ rows result total,
      export_selected_parameters pbc S checked file version = Except.ok rows ∧
      import_parameter_values pbc [] rows file version =
        Except.ok (result, total) ∧
      (∀ cat entry, dictGet S cat = some entry → dictGet result cat = some entry) ∧
      (∀ cat, dictGet S cat = none → dictGet result cat = none) := by
  have hSain : ∀ e ∈ S, dictGet S e.1 = some e.2 := dictGet_self_of_nodup S hSN
  have hne' : ∀ e ∈ S, e.2.2 ≠ [] ∧ e.2.1 ≠ [] := by
    intro e he
    refine ⟨hner e he, ?_⟩
    intro hq
    apply hner e he
    have hl := hlen e he
    rw [hq] at hl
    simpa using List.length_eq_zero.mp (by simpa using hl)
  have hexp : export_selected_parameters pbc S checked file version =
      Except.ok (S.flatMap (fun e => (List.range e.2.1.length).map (fun i =>
        mkExportRow (e.2.1.getD i dummyParam) (e.2.2.getD i (some 0))))) := by
    unfold export_selected_parameters
    rw [hchk]
    exact export_eval pbc S file version S [] hSain hdom hne'
  set rows : List CsvRow := S.flatMap (fun e => (List.range e.2.1.length).map
    (fun i => mkExportRow (e.2.1.getD i dummyParam) (e.2.2.getD i (some 0))))
    with hrows
  have hrowkeys : rows.map compositeKeyOfRow =
      S.flatMap (fun e => e.2.1.map compositeKeyOfParam) := by
    rw [hrows, List.map_flatMap]
    congr 1
    funext e
    rw [List.map_map]
    have hcomp : (compositeKeyOfRow ∘ fun i =>
        mkExportRow (e.2.1.getD i dummyParam) (e.2.2.getD i (some 0))) =
        fun i => compositeKeyOfParam (e.2.1.getD i dummyParam) := by
      funext i
      simp [Function.comp, compositeKeyOfRow_mkExportRow]
    rw [hcomp, map_getD_range']
  have hrownodup : (rows.map compositeKeyOfRow).Nodup := by
    rw [hrowkeys]
    exact hkeys
  have hlook : ∀ e ∈ S, ∀ i, i < e.2.1.length →
      ∃ v : Int, e.2.2.getD i (some 0) = some v ∧
        dictGet (buildImportedMap rows)
          (compositeKeyOfParam (e.2.1.getD i dummyParam)) = some v := by
    intro e he i hi
    have hi2 : i < e.2.2.length := by rw [hlen e he]; exact hi
    have hovne := hsome e he (e.2.2.getD i (some 0))
      (getD_mem_of_lt e.2.2 i (some 0) hi2)
    obtain ⟨v, hv⟩ : ∃ v : Int, e.2.2.getD i (some 0) = some v := by
      cases hq : e.2.2.getD i (some 0) with
      | none => exact absurd hq hovne
      | some v => exact ⟨v, rfl⟩
    refine ⟨v, hv, ?_⟩
    have hrmem : mkExportRow (e.2.1.getD i dummyParam)
        (e.2.2.getD i (some 0)) ∈ rows := by
      rw [hrows]
      exact List.mem_flatMap.mpr
        ⟨e, he, List.mem_map_of_mem _ (List.mem_range.mpr hi)⟩
    have hparse : pyIntDec (pyStrip (mkExportRow (e.2.1.getD i dummyParam)
        (e.2.2.getD i (some 0))).valStr) = some v := by
      rw [hv]
      show pyIntDec (pyStrip (intToDec v)) = some v
      exact pyIntDec_pyStrip_intToDec v
    have hfound := buildImportedMap_lookup rows _ v hrmem hrownodup hparse
    rw [compositeKeyOfRow_mkExportRow] at hfound
    exact hfound
  have hcase : ∀ e ∈ pbc,
      (∃ entry, dictGet S e.1 = some entry ∧
        entry.1 = filter_parameters e.2 version ∧ entry.2 ≠ [] ∧
        List.Forall₂ (fun p ov => ∃ v : Int, ov = some v ∧
          dictGet (buildImportedMap rows) (compositeKeyOfParam p) = some v)
          entry.1 entry.2) ∨
      (dictGet S e.1 = none ∧ ∀ p ∈ filter_parameters e.2 version,
        dictGet (buildImportedMap rows) (compositeKeyOfParam p) = none) := by
    intro f hf
    cases hSf : dictGet S f.1 with
    | none =>
      refine Or.inr ⟨rfl, ?_⟩
      intro p hp
      apply buildImportedMap_none
      intro r hr heq
      apply hdisj f hf hSf p hp
      rw [← heq, ← hrowkeys]
      exact List.mem_map_of_mem _ hr
    | some entry =>
      left
      have hmemS : (f.1, entry) ∈ S := dictGet_mem S f.1 entry hSf
      obtain ⟨raw, hraw, hfu⟩ := hdom (f.1, entry) hmemS
      have hf2 : dictGet pbc f.1 = some f.2 := dictGet_self_of_nodup pbc hpbcN f hf
      have hrawf : raw = f.2 := by
        rw [hraw] at hf2
        exact Option.some.inj hf2
      refine ⟨entry, rfl, ?_, hner (f.1, entry) hmemS, ?_⟩
      · show entry.1 = filter_parameters f.2 version
        rw [show entry.1 = ((f.1, entry) :
          String × List Param × List (Option Int)).2.1 from rfl, hfu, hrawf]
      · apply forall₂_of_getD _ dummyParam (some 0)
        · exact (hlen (f.1, entry) hmemS).symm
        · intro i hi
          obtain ⟨v, hv, hg⟩ := hlook (f.1, entry) hmemS i hi
          exact ⟨v, hv, hg⟩
  by_cases hS0 : S = []
  · refine ⟨rows, [], 0, hexp, ?_, ?_, ?_⟩
    · have hrows0 : rows = [] := by
        rw [hrows, hS0]
        rfl
      rw [hrows0]
      rfl
    · intro cat entry hcat
      rw [hS0] at hcat
      cases hcat
    · intro cat _
      rfl
  · obtain ⟨e0, he0⟩ := List.exists_mem_of_ne_nil S hS0
    have h01 : 0 < e0.2.1.length := List.length_pos.mpr (hne' e0 he0).2
    obtain ⟨v0, hv0, hget0⟩ := hlook e0 he0 0 h01
    have himapE : (buildImportedMap rows).isEmpty = false := by
      cases hq : buildImportedMap rows with
      | nil => rw [hq] at hget0; cases hget0
      | cons a l => rfl
    obtain ⟨u', t', hfold, ha, hb⟩ := import_fold_eval (buildImportedMap rows)
      file version S pbc [] 0 hpbcN hreads hcase
    refine ⟨rows, u', t', hexp, ?_, ?_, ?_⟩
    · unfold import_parameter_values
      simp only [himapE, Bool.false_eq_true, if_false]
      exact hfold
    · intro cat entry hcat
      refine ha cat entry hcat ?_
      have hmemS : (cat, entry) ∈ S := dictGet_mem S cat entry hcat
      obtain ⟨raw, hraw, _⟩ := hdom (cat, entry) hmemS
      exact dictGet_mem_fst pbc cat raw hraw
    · intro cat hcat
      rw [hb cat (Or.inl hcat)]
      rfl

/-- A third row (valid Windy address 0x12), in a category outside the
witness ChangeSet. -/
def paramCx2 : Param :=
  { description := "q", dataType := "UInt8", lengthStr := "1",
    dos := "", windy := "12", rend := "", rend32 := "" }

/-- Two-category catalog for the C4 witness. -/
def pbcW : List (String × List Param) :=
  [("Cat", [paramCx0, paramCx1]), ("Other", [paramCx2])]

/-- Witness ChangeSet: both values of "Cat" are known integers. -/
def changeSetW : ChangeSet := [("Cat", ([paramCx0, paramCx1], [some 3, some 7]))]

/-- All of `changeSetW`'s parameters are checked for export. -/
def checkedW : List (String × List Nat) := [("Cat", [0, 1])]

/-- A 19-byte file with bytes 42, 9, 5 at offsets 0x10, 0x11, 0x12. -/
def fileW : List Nat := List.replicate 16 0 ++ [42, 9, 5]

/-- Witness for C4 at the concrete two-category catalog: the round trip
reproduces exactly the entry of "Cat" and leaves "Other" without one. -/
theorem export_import_roundtrip_witness :
    ∃ rows result total,
      export_selected_parameters pbcW changeSetW checkedW fileW "windy101" =
        Except.ok rows ∧
      import_parameter_values pbcW [] rows fileW "windy101" =
        Except.ok (result, total) ∧
      (∀ cat entry, dictGet changeSetW cat = some entry →
        dictGet result cat = some entry) ∧
      (∀ cat, dictGet changeSetW cat = none → dictGet result cat = none) := by
  refine export_import_roundtrip pbcW changeSetW fileW "windy101" checkedW
    (by decide) (by decide) ?_ (by decide) (by decide) (by decide) (by decide)
    (by decide) (by decide) ?_
  · intro e he
    rcases List.mem_singleton.mp he with rfl
    exact ⟨[paramCx0, paramCx1], by decide, by decide⟩
  · intro e he
    rcases List.mem_cons.mp he with rfl | he'
    · exact ⟨[some 42, some 9], by decide⟩
    · rcases List.mem_singleton.mp he' with rfl
      exact ⟨[some 5], by decide⟩
